import Mathlib

/-!
Shallow embedding of the cart/order/coupon/payment business logic of the
restaurant-management backend (apps `orders`, `coupons`, `payments`), together
with proofs of the behavioural properties stated in its design note.

Money is modelled as exact rationals (`ℚ`); the Python `Decimal.quantize` calls
are modelled by explicit rounding-to-cents functions (`qHU2` for
`ROUND_HALF_UP`, `qEven2` for the default `ROUND_HALF_EVEN` context rounding).
-/

namespace RMS

/-- Round a rational to integer cents with ties away from zero, as Python's
`Decimal.quantize(Decimal("0.01"), rounding=ROUND_HALF_UP)` does. -/
def centsHalfUp (x : ℚ) : ℤ :=
  if 0 ≤ x then ⌊x * 100 + 1/2⌋ else -⌊-x * 100 + 1/2⌋

/-- Rounding `ROUND_HALF_UP` quantization to two decimal places. -/
def qHU2 (x : ℚ) : ℚ := (centsHalfUp x : ℚ) / 100

/-- Round a rational to integer cents with ties to even, as Python's
`Decimal.quantize(Decimal("0.01"))` does under the default context rounding
`ROUND_HALF_EVEN`. -/
def centsHalfEven (x : ℚ) : ℤ :=
  let f : ℤ := ⌊x * 100⌋
  if x * 100 - f < 1/2 then f
  else if 1/2 < x * 100 - f then f + 1
  else if f % 2 = 0 then f else f + 1

/-- Rounding `ROUND_HALF_EVEN` quantization to two decimal places. -/
def qEven2 (x : ℚ) : ℚ := (centsHalfEven x : ℚ) / 100

/-- A value representable exactly in two decimal places (a whole number of
cents), e.g. any `DecimalField(decimal_places=2)` column value. -/
def TwoDp (x : ℚ) : Prop := ∃ c : ℤ, x * 100 = (c : ℚ)

theorem qHU2_of_twoDp {x : ℚ} (h : TwoDp x) : qHU2 x = x := by
  obtain ⟨c, hc⟩ := h
  have hx : x = (c : ℚ) / 100 := by
    field_simp at hc ⊢
    linarith
  rcases le_or_lt 0 x with hpos | hneg
  · have : ⌊x * 100 + 1/2⌋ = c := by
      rw [hc, Int.floor_eq_iff]
      constructor <;> push_cast <;> linarith
    simp only [qHU2, centsHalfUp, if_pos hpos, this]
    rw [hx]
  · have : ⌊-x * 100 + 1/2⌋ = -c := by
      have : -x * 100 = ((-c : ℤ) : ℚ) := by push_cast; linarith
      rw [this, Int.floor_eq_iff]
      constructor <;> push_cast <;> linarith
    simp only [qHU2, centsHalfUp, if_neg (not_le.mpr hneg), this]
    rw [hx]; push_cast; ring

theorem qEven2_of_twoDp {x : ℚ} (h : TwoDp x) : qEven2 x = x := by
  obtain ⟨c, hc⟩ := h
  have hx : x = (c : ℚ) / 100 := by
    field_simp at hc ⊢
    linarith
  have hf : ⌊x * 100⌋ = c := by rw [hc]; exact Int.floor_intCast c
  simp only [qEven2, centsHalfEven, hf, hc, sub_self]
  norm_num
  rw [hx]

theorem qHU2_nonneg {x : ℚ} (h : 0 ≤ x) : 0 ≤ qHU2 x := by
  have : (0 : ℤ) ≤ ⌊x * 100 + 1/2⌋ := by
    apply Int.floor_nonneg.mpr
    linarith
  simp only [qHU2, centsHalfUp, if_pos h]
  positivity

/-! ### Coupons (`coupons/models.py`) -/

/-- The fields of `coupons.models.Coupon` that `is_valid_now` reads.
Timestamps are modelled as integers on an abstract time axis; `valid_from`,
`valid_to` and `max_uses` are nullable. -/
structure Coupon where
  active : Bool
  valid_from : Option Int
  valid_to : Option Int
  max_uses : Option Nat
  times_used : Nat
  percent : Nat
deriving DecidableEq

/-- Method `Coupon.is_valid_now` from `coupons/models.py`: the sequence of early
`return False` guards, with `timezone.now()` passed explicitly as `now`. -/
def Coupon.is_valid_now (c : Coupon) (now : Int) : Bool :=
  if !c.active then false
  else if (match c.valid_from with | some vf => decide (now < vf) | none => false) then false
  else if (match c.valid_to with | some vt => decide (vt < now) | none => false) then false
  else if (match c.max_uses with | some m => decide (m ≤ c.times_used) | none => false) then false
  else if c.percent ≤ 0 then false
  else true

/-! ### Pricing / discount calculator (`payments/services.py`) -/

/-- One order line, as read by `compute_order_total` and the cart-merge logic:
`orders.OrderItem` restricted to `menu_item_id`, `quantity`, `unit_price`. -/
structure OrderItemRec where
  menu_item_id : Int
  quantity : Int
  unit_price : ℚ
deriving DecidableEq

/-- Method `OrderItem.line_total`: quantity times snapshotted unit price. -/
def OrderItemRec.line_total (it : OrderItemRec) : ℚ :=
  (it.quantity : ℚ) * it.unit_price

/-- The optional discount-bearing fields of an order that
`_apply_order_discounts` probes with `hasattr`/`getattr`, plus its items and
status. `none` models an absent attribute or a null value; a present value of
`0` is skipped by the `if p:` / `if a:` truthiness guards exactly like an
absent one. `coupon` holds the related coupon's `percent` when a coupon is
attached. The `orders.Order` model file itself is not part of the sources;
per the data model of the design note an order carries status, items and
discount data, which is all the pricing and payment code reads. -/
structure OrderRec where
  status : String
  items : List OrderItemRec
  discount_percent : Option ℚ
  coupon_percent : Option ℚ
  coupon : Option ℚ
  discount_amount : Option ℚ
  coupon_amount : Option ℚ
deriving DecidableEq

/-- Apply one optional percent field the way `_apply_order_discounts` does:
`total = total * (100 - p) / 100`, skipped when the field is absent or falsy. -/
def applyPercentField (p : Option ℚ) (total : ℚ) : ℚ :=
  match p with
  | some v => if v ≠ 0 then total * (100 - v) / 100 else total
  | none => total

/-- Subtract one optional fixed-amount field the way `_apply_order_discounts`
does, skipped when the field is absent or falsy. -/
def applyAmountField (a : Option ℚ) (total : ℚ) : ℚ :=
  match a with
  | some v => if v ≠ 0 then total - v else total
  | none => total

/-- Function `payments.services._apply_order_discounts`: percent fields first
(`discount_percent`, then `coupon_percent`), then the coupon relation's
percent, then fixed amounts (`discount_amount`, `coupon_amount`); finally
`max(Decimal("0.00"), total).quantize(Decimal("0.01"), ROUND_HALF_UP)`. -/
def applyOrderDiscounts (o : OrderRec) (total : ℚ) : ℚ :=
  let t1 := applyPercentField o.discount_percent total
  let t2 := applyPercentField o.coupon_percent t1
  let t3 := applyPercentField o.coupon t2
  let t4 := applyAmountField o.discount_amount t3
  let t5 := applyAmountField o.coupon_amount t4
  qHU2 (max 0 t5)

/-- Function `payments.services.compute_order_total` on an order without a
`grand_total`/`total` attribute (the `orders.Order` model file is absent from
the sources; per the design note the total is derived from the items and the
discount fields, which is this fallback branch): sum the items' line totals,
quantize, then apply discounts. -/
def computeOrderTotal (o : OrderRec) : ℚ :=
  let total := o.items.foldl (fun acc it => acc + it.line_total) 0
  applyOrderDiscounts o (qEven2 total)

/-! ### Cart normalizer (`orders/views.py`, `_normalize_items`) -/

/-- A JSON-ish value found in a raw cart entry, as far as `int(...)` coercion
and Python truthiness can tell them apart: `vint n` is a value that coerces to
the integer `n` (and is falsy exactly when `n = 0`), `vbad` is a truthy value
on which `int(...)` raises. -/
inductive Val where
  | vint : Int → Val
  | vbad : Val
deriving DecidableEq

/-- Python truthiness of a `Val`. -/
def Val.truthy : Val → Bool
  | vint n => n != 0
  | vbad => true

/-- Coercion `int(...)` of a `Val`; `none` models a raised exception. -/
def Val.toInt? : Val → Option Int
  | vint n => some n
  | vbad => none

/-- A raw mapping-like cart entry: the six keys `_normalize_items` probes via
`raw.get(...)`; `none` models an absent key (i.e. `raw.get` returning the
falsy, uncoercible `None`). -/
structure RawItem where
  menu_item_id : Option Val := none
  menu_item : Option Val := none
  product : Option Val := none
  id : Option Val := none
  quantity : Option Val := none
  qty : Option Val := none
deriving DecidableEq

/-- Python's `a or b or ...` over `raw.get` results: the first truthy value, or
`none` when every operand is falsy or absent. (When the chain falls through,
the Python expression yields its last operand, a falsy value — either `None`,
on which `int(...)` raises, or a zero, which fails the `> 0` check; both ways
the entry is dropped, which `none` models.) -/
def orChain : List (Option Val) → Option Val
  | [] => none
  | v :: rest =>
    match v with
    | some x => if x.truthy then some x else orChain rest
    | none => orChain rest

/-- The body of `_normalize_items` for one entry: resolve the product id
through the alias chain `menu_item_id or menu_item or product or id`, the
quantity through `quantity or qty or 1`, coerce both with `int(...)`
(`except: continue`), then keep the pair only when both are positive. -/
def normEntry (r : RawItem) : Option (Int × Int) :=
  let pidv := orChain [r.menu_item_id, r.menu_item, r.product, r.id]
  let qtyv := (orChain [r.quantity, r.qty]).getD (Val.vint 1)
  match pidv with
  | none => none
  | some pv =>
    match pv.toInt?, qtyv.toInt? with
    | some pid, some q => if 0 < pid ∧ 0 < q then some (pid, q) else none
    | _, _ => none

/-- Function `orders.views._normalize_items`: normalize a raw list, silently dropping
entries that fail, producing `{id, quantity}` pairs. -/
def normalizeItems (l : List RawItem) : List (Int × Int) :=
  l.filterMap normEntry

/-- A normalized output entry `{"id": p, "quantity": q}` viewed again as a raw
mapping, as stored back into the session by `_cart_set`. -/
def toRaw (e : Int × Int) : RawItem :=
  { id := some (Val.vint e.1), quantity := some (Val.vint e.2) }

/-! ### Cart merge into the pending order (`SessionCartViewSet.merge`) -/

/-- The in-place mutation `merge` performs on the line for catalog item `p`:
`oi.quantity = int(oi.quantity) + qty; oi.unit_price = unit`. Lines for other
catalog items are left alone. -/
def updLine (p : Int) (qty : Int) (unit : ℚ) (oi : OrderItemRec) : OrderItemRec :=
  if oi.menu_item_id = p then
    { oi with quantity := oi.quantity + qty, unit_price := unit }
  else oi

/-- One iteration of the `for it in session_items` loop in `merge`: the
`existing` dict of the order's lines is snapshotted before the loop, so the
membership test uses the original ids; a hit mutates the matching line in
place — adding the quantity and overwriting the unit price with the current
catalog price — while a miss appends a fresh `OrderItem` row. -/
def mergeStep (existingIds : List Int) (priceOf : Int → ℚ)
    (items : List OrderItemRec) (s : Int × Int) : List OrderItemRec :=
  if s.1 ∈ existingIds then
    items.map (updLine s.1 s.2 (priceOf s.1))
  else
    items ++ [⟨s.1, s.2, priceOf s.1⟩]

/-- Endpoint `SessionCartViewSet.merge`: upsert every normalized session item into the
order's line list. `priceOf` is the current catalog price (`MenuItem.price`)
looked up by `_fetch_menu_item`. -/
def mergeCart (priceOf : Int → ℚ) (items : List OrderItemRec)
    (session : List (Int × Int)) : List OrderItemRec :=
  session.foldl (mergeStep (items.map (·.menu_item_id)) priceOf) items

/-! ### Session-cart add-item endpoint (`SessionCartViewSet.add_item`) -/

/-- The `for ... else` upsert inside `add_item`: add the quantity to the first
line with a matching id (then `break`), or append the new line. -/
def addMerge : List (Int × Int) → (Int × Int) → List (Int × Int)
  | [], add => [add]
  | it :: rest, add =>
    if it.1 = add.1 then (it.1, it.2 + add.2) :: rest
    else it :: addMerge rest add

/-- Helper `orders.views._enrich` restricted to its subtotal: each line total is
`(unit * qty).quantize(Decimal("0.01"))` and the subtotal is the quantized
sum. `priceOf` is the catalog price of `_fetch_menu_item`. -/
def enrichSubtotal (priceOf : Int → ℚ) (items : List (Int × Int)) : ℚ :=
  qEven2 (items.foldl (fun acc it => acc + qEven2 (priceOf it.1 * (it.2 : ℚ))) 0)

/-- The observable outcome of the `add_item` endpoint: the HTTP status code
and the `items`/`subtotal` payload of the returned `Response` (which always
carries status 200 — the handler has no error branch). -/
structure CartResponse where
  code : Nat
  items : List (Int × Int)
  subtotal : ℚ
deriving DecidableEq

/-- Endpoint `SessionCartViewSet.add_item`: normalize the stored cart and the request
body; if the body normalized to something, upsert it and store the updated
list back; either way respond 200 with the (possibly updated) normalized
items and their subtotal. Returns the new stored session cart and the
response. -/
def addItem (priceOf : Int → ℚ) (stored : List RawItem) (body : RawItem) :
    List RawItem × CartResponse :=
  let items := normalizeItems stored
  match normalizeItems [body] with
  | [] => (stored, ⟨200, items, enrichSubtotal priceOf items⟩)
  | add :: _ =>
    let items' := addMerge items add
    (items'.map toRaw, ⟨200, items', enrichSubtotal priceOf items'⟩)

/-! ### Payments (`payments/models.py`, `payments/services.py`) -/

/-- The fields of `payments.models.Payment` that `ensure_payment` and
`mark_paid` touch. The model is a `OneToOneField` to the order; here the rows
belonging to one order are kept as a list so that "no second row is created"
is a provable statement rather than a modelling assumption. -/
structure PaymentRec where
  provider : String
  currency : String
  amount : ℚ
  is_paid : Bool
  stripe_session_id : String
  stripe_payment_intent : String
deriving DecidableEq

/-- The state a webhook replay acts on: the order row and the Payment rows
attached to it. -/
structure PayState where
  order : OrderRec
  payments : List PaymentRec
deriving DecidableEq

/-- Function `payments.services.ensure_payment`: `Payment.objects.get_or_create` (take
the existing row, else insert one with the model defaults and the
`defaults={currency, provider}` of the call), then recompute `amount` from the
order and refresh `currency`, and save. Returns the row and the new table. -/
def ensurePayment (cur : String) (s : PayState) : PaymentRec × List PaymentRec :=
  let base : PaymentRec :=
    match s.payments with
    | [] => ⟨"stripe", cur, 0, false, "", ""⟩
    | p :: _ => p
  let upd : PaymentRec :=
    { base with amount := computeOrderTotal s.order, currency := cur }
  match s.payments with
  | [] => (upd, [upd])
  | _ :: rest => (upd, upd :: rest)

/-- Function `payments.services.mark_paid`: ensure the Payment row, set `is_paid` (only
if not already set), overwrite the Stripe identifiers when given, save, and
set the order's status to `"PAID"` unless it already is. -/
def markPaid (cur : String) (s : PayState)
    (payment_intent_id : Option String) (session_id : Option String) : PayState :=
  let ep := ensurePayment cur s
  let pay := ep.1
  let pay1 := if !pay.is_paid then { pay with is_paid := true } else pay
  let pay2 :=
    match payment_intent_id with
    | some pid => { pay1 with stripe_payment_intent := pid }
    | none => pay1
  let pay3 :=
    match session_id with
    | some sid => { pay2 with stripe_session_id := sid }
    | none => pay2
  let payments' :=
    match ep.2 with
    | [] => [pay3]
    | _ :: rest => pay3 :: rest
  let order' :=
    if s.order.status ≠ "PAID" then { s.order with status := "PAID" } else s.order
  ⟨order', payments'⟩

/-! ### Checkout dispatcher (`OrderViewSet.create`) -/

/-- The channels accepted by the checkout flow (`allowed` in
`OrderViewSet.create` and `SessionCartViewSet.set_meta`). -/
def allowedServiceTypes : List String := ["DINE_IN", "UBEREATS", "DOORDASH", "TAKEAWAY"]

/-- Service-type selection in `OrderViewSet.create`: the request body's
`service_type` (uppercased and stripped) when recognized, else the session
cart metadata's `service_type` when recognized, else `"DINE_IN"`. -/
def selectServiceType (bodySt : String) (metaSt : Option String) : String :=
  let req := bodySt.toUpper.trim
  if req ∈ allowedServiceTypes then req
  else
    match metaSt with
    | some m => if m ∈ allowedServiceTypes then m else "DINE_IN"
    | none => "DINE_IN"

/-- The aggregator links configured in settings (`DOORDASH_ORDER_URL`,
`UBEREATS_ORDER_URL`); the empty string models an unset value. -/
structure AggregatorSettings where
  doordashUrl : String
  ubereatsUrl : String
deriving DecidableEq

/-- The `external_options` list built in `OrderViewSet.create`: one
`(code, url)` entry per configured aggregator link, DoorDash first. -/
def externalOptions (s : AggregatorSettings) : List (String × String) :=
  (if s.doordashUrl ≠ "" then [("DOORDASH", s.doordashUrl)] else []) ++
  (if s.ubereatsUrl ≠ "" then [("UBEREATS", s.ubereatsUrl)] else [])

/-- The routing-relevant part of the 201 response of `OrderViewSet.create`. -/
structure CheckoutResponse where
  checkout_url : Option String
  external_options : List (String × String)
  service_type : String
  sessionCreated : Bool
deriving DecidableEq

/-- The tail of `OrderViewSet.create`: a Stripe checkout session is created,
and its redirect URL returned, exactly when the selected channel is
`DINE_IN` or `TAKEAWAY`; otherwise `checkout_url` stays `None` and the client
is left with the static aggregator options. `sessionUrl` abstracts the `url`
of the session `create_checkout_session` would return. -/
def dispatchCheckout (st : String) (s : AggregatorSettings) (sessionUrl : String) :
    CheckoutResponse :=
  let inHouse := st = "DINE_IN" ∨ st = "TAKEAWAY"
  { checkout_url := if st = "DINE_IN" ∨ st = "TAKEAWAY" then some sessionUrl else none,
    external_options := externalOptions s,
    service_type := st,
    sessionCreated := decide inHouse }

/-! ### The sequential ("running total") reading of multiple percent
discounts, versus the summed reading of the design note. -/

/-- The composition rule the design note describes for several percent
discounts: each percent is computed against the original, undiscounted
subtotal and the resulting discount amounts are summed (followed by the fixed
amounts and the same floor-and-quantize finish). Written from the note's
words, to be compared against `applyOrderDiscounts`. -/
def applyOrderDiscountsSummed (o : OrderRec) (total : ℚ) : ℚ :=
  let pctOf : Option ℚ → ℚ := fun p =>
    match p with
    | some v => if v ≠ 0 then total * v / 100 else 0
    | none => 0
  let amtOf : Option ℚ → ℚ := fun a =>
    match a with
    | some v => if v ≠ 0 then v else 0
    | none => 0
  let discount := pctOf o.discount_percent + pctOf o.coupon_percent + pctOf o.coupon
  let t := total - discount - amtOf o.discount_amount - amtOf o.coupon_amount
  qHU2 (max 0 t)

/-! ## Theorems -/

/-- C2: for every order (any combination of percent and fixed discount
fields) and every incoming total (subtotal plus any tip), the pricing
calculator's result is never negative: `_apply_order_discounts` floors at
zero before quantizing and returning, and hence `compute_order_total` is
never negative either. -/
theorem grand_total_never_negative (o : OrderRec) (total : ℚ) :
    0 ≤ applyOrderDiscounts o total ∧ 0 ≤ computeOrderTotal o := by
  constructor
  · exact qHU2_nonneg (le_max_left 0 _)
  · exact qHU2_nonneg (le_max_left 0 _)

/-- C3: a coupon is currently usable iff it is active, the evaluation time is
within the optional validity window, the usage counter is strictly below the
optional cap, and the percent is strictly positive. -/
theorem coupon_usable_iff (c : Coupon) (now : Int) :
    c.is_valid_now now = true ↔
      c.active = true ∧
      (∀ vf, c.valid_from = some vf → vf ≤ now) ∧
      (∀ vt, c.valid_to = some vt → now ≤ vt) ∧
      (∀ m, c.max_uses = some m → c.times_used < m) ∧
      0 < c.percent := by
  rcases c with ⟨a, vf, vt, mu, tu, p⟩
  unfold Coupon.is_valid_now
  cases a <;> rcases vf with _ | vf <;> rcases vt with _ | vt <;>
    rcases mu with _ | mu <;> simp <;> omega

/-- C5 counterexample: on an order carrying a `discount_percent` of 50 and an
attached coupon with percent 50, the code discounts a 100.00 subtotal to
25.00 (each percent applied to the running total), while the summed-percents
rule of the claim would discount it to 0.00. -/
theorem percent_discounts_differ_from_summed :
    applyOrderDiscounts ⟨"PENDING", [], some 50, none, some 50, none, none⟩ 100 = 25 ∧
    applyOrderDiscountsSummed ⟨"PENDING", [], some 50, none, some 50, none, none⟩ 100 = 0 ∧
    applyOrderDiscounts ⟨"PENDING", [], some 50, none, some 50, none, none⟩ 100 ≠
      applyOrderDiscountsSummed ⟨"PENDING", [], some 50, none, some 50, none, none⟩ 100 := by
  refine ⟨?_, ?_, ?_⟩ <;>
    norm_num [applyOrderDiscounts, applyOrderDiscountsSummed, applyPercentField,
      applyAmountField, qHU2, centsHalfUp, max_def]

/-- C5 (amended): when an order carries both a nonzero percent field and an
attached coupon with a nonzero percent, the second percent is applied to the
already-discounted running total: the pre-floor total is
`total * (100 - p1)/100 * (100 - p2)/100` (multiplicative composition), not
the original subtotal minus the sum of the two percent discounts. -/
theorem percent_discounts_compose_on_running_total
    (st : String) (its : List OrderItemRec) (p1 p2 : ℚ)
    (hp1 : p1 ≠ 0) (hp2 : p2 ≠ 0) (total : ℚ) :
    applyOrderDiscounts ⟨st, its, some p1, none, some p2, none, none⟩ total =
      qHU2 (max 0 (total * (100 - p1) / 100 * (100 - p2) / 100)) := by
  simp [applyOrderDiscounts, applyPercentField, applyAmountField, hp1, hp2]

/-- Witness for the amended C5 at a concrete order. -/
theorem percent_discounts_compose_witness :
    applyOrderDiscounts ⟨"PENDING", [], some 50, none, some 50, none, none⟩ 100 =
      qHU2 (max 0 (100 * (100 - 50) / 100 * (100 - 50) / 100)) :=
  percent_discounts_compose_on_running_total "PENDING" [] 50 50
    (by norm_num) (by norm_num) 100

theorem twoDp_zero : TwoDp 0 := ⟨0, by norm_num⟩

theorem twoDp_add {x y : ℚ} (hx : TwoDp x) (hy : TwoDp y) : TwoDp (x + y) := by
  obtain ⟨a, ha⟩ := hx
  obtain ⟨b, hb⟩ := hy
  exact ⟨a + b, by push_cast; linarith⟩

theorem twoDp_mul_int {x : ℚ} (hx : TwoDp x) (n : Int) : TwoDp (x * n) := by
  obtain ⟨a, ha⟩ := hx
  refine ⟨a * n, ?_⟩
  push_cast
  linear_combination (n : ℚ) * ha

/-- Per-line `quantize` in `_enrich` is exact when catalog prices carry at
most two decimal places, so the quantized fold equals the exact fold. -/
theorem enrich_fold_exact (priceOf : Int → ℚ) (hp : ∀ pid, TwoDp (priceOf pid)) :
    ∀ (items : List (Int × Int)) (acc : ℚ), TwoDp acc →
      items.foldl (fun a it => a + qEven2 (priceOf it.1 * (it.2 : ℚ))) acc =
        items.foldl (fun a it => a + priceOf it.1 * (it.2 : ℚ)) acc ∧
      TwoDp (items.foldl (fun a it => a + priceOf it.1 * (it.2 : ℚ)) acc) := by
  intro items
  induction items with
  | nil => exact fun acc hacc => ⟨rfl, hacc⟩
  | cons it rest ih =>
    intro acc hacc
    have hline : TwoDp (priceOf it.1 * (it.2 : ℚ)) := twoDp_mul_int (hp it.1) it.2
    have hstep := ih (acc + priceOf it.1 * (it.2 : ℚ)) (twoDp_add hacc hline)
    refine ⟨?_, hstep.2⟩
    simp only [List.foldl_cons, qEven2_of_twoDp hline]
    exact hstep.1

/-- C6: with two-decimal catalog prices (the `DecimalField(decimal_places=2)`
columns of the data model), the `_enrich` subtotal is exactly the sum of
`unit_price * quantity` rounded half-up to two decimals; on the cart
`[{menu_item_id: 5, quantity: 2}]` at unit price 9.99 the subtotal is 19.98,
an attached percent-10 coupon yields grand total 17.98, and the implied
discount is 2.00. -/
theorem subtotal_sum_and_coupon_scenario (priceOf : Int → ℚ)
    (items : List (Int × Int)) (hp : ∀ pid, TwoDp (priceOf pid)) :
    enrichSubtotal priceOf items =
      qHU2 (items.foldl (fun a it => a + priceOf it.1 * (it.2 : ℚ)) 0) ∧
    enrichSubtotal (fun _ => 999/100) [(5, 2)] = 1998/100 ∧
    computeOrderTotal ⟨"PENDING", [⟨5, 2, 999/100⟩], none, none, some 10, none, none⟩ =
      1798/100 ∧
    enrichSubtotal (fun _ => 999/100) [(5, 2)] -
      computeOrderTotal ⟨"PENDING", [⟨5, 2, 999/100⟩], none, none, some 10, none, none⟩ =
      2 := by
  refine ⟨?_, ?_, ?_, ?_⟩
  · have h := enrich_fold_exact priceOf hp items 0 twoDp_zero
    unfold enrichSubtotal
    rw [h.1, qEven2_of_twoDp h.2, qHU2_of_twoDp h.2]
  · norm_num [enrichSubtotal, qEven2, centsHalfEven]
  · norm_num [computeOrderTotal, applyOrderDiscounts, applyPercentField,
      applyAmountField, OrderItemRec.line_total, qEven2, centsHalfEven,
      qHU2, centsHalfUp, max_def]
  · norm_num [enrichSubtotal, computeOrderTotal, applyOrderDiscounts,
      applyPercentField, applyAmountField, OrderItemRec.line_total,
      qEven2, centsHalfEven, qHU2, centsHalfUp, max_def]

/-- Witness for C6 at the scenario's own cart and price table. -/
theorem subtotal_sum_and_coupon_scenario_witness :
    enrichSubtotal (fun _ => 999/100) [(5, 2)] =
      qHU2 ([((5 : Int), (2 : Int))].foldl
        (fun a it => a + (fun _ => (999 : ℚ)/100) it.1 * (it.2 : ℚ)) 0) ∧
    enrichSubtotal (fun _ => 999/100) [(5, 2)] = 1998/100 ∧
    computeOrderTotal ⟨"PENDING", [⟨5, 2, 999/100⟩], none, none, some 10, none, none⟩ =
      1798/100 ∧
    enrichSubtotal (fun _ => 999/100) [(5, 2)] -
      computeOrderTotal ⟨"PENDING", [⟨5, 2, 999/100⟩], none, none, some 10, none, none⟩ =
      2 :=
  subtotal_sum_and_coupon_scenario (fun _ => 999/100) [(5, 2)]
    (fun _ => ⟨999, by norm_num⟩)

/-- Every entry `_normalize_items` keeps has a positive id and quantity. -/
theorem normEntry_pos {r : RawItem} {e : Int × Int} (h : normEntry r = some e) :
    0 < e.1 ∧ 0 < e.2 := by
  simp only [normEntry] at h
  split at h
  · exact absurd h (by simp)
  · split at h
    · split_ifs at h with hc
      injection h with h'
      rw [← h']
      exact hc
    all_goals exact absurd h (by simp)

/-- C7 counterexample: the entry `{"id": 5, "quantity": 0}` — whose quantity
does not coerce to a positive integer — is not dropped: the falsy `0` falls
through the `quantity or qty or 1` chain and the entry is kept with the
default quantity 1. -/
theorem qty_zero_entry_kept :
    normalizeItems [{ id := some (Val.vint 5), quantity := some (Val.vint 0) }] = [(5, 1)] ∧
    normalizeItems [{ id := some (Val.vint 5), quantity := some (Val.vint 0) }] ≠ [] := by
  exact ⟨by decide, by decide⟩

/-- C7 (amended): every entry the normalizer emits has a positive id and a
positive quantity, the id is resolved through the alias chain
`menu_item_id or menu_item or product or id` and the quantity through
`quantity or qty` with default 1; an entry is kept exactly when the first
truthy id-alias value coerces to a positive integer and the resolved quantity
value — the default 1 when both quantity keys are falsy or absent, so an
explicit quantity of 0 is kept with quantity 1 rather than dropped — coerces
to a positive integer. -/
theorem normalizer_shape_and_drop (l : List RawItem) (r : RawItem) (p q : Int) :
    (∀ e ∈ normalizeItems l, 0 < e.1 ∧ 0 < e.2) ∧
    (normEntry r = some (p, q) ↔
      (orChain [r.menu_item_id, r.menu_item, r.product, r.id]).bind Val.toInt? = some p ∧
      0 < p ∧
      ((orChain [r.quantity, r.qty]).getD (Val.vint 1)).toInt? = some q ∧
      0 < q) := by
  constructor
  · intro e he
    obtain ⟨r', _, hr'⟩ := List.mem_filterMap.mp he
    exact normEntry_pos hr'
  · rcases h1 : orChain [r.menu_item_id, r.menu_item, r.product, r.id] with _ | pv
    · simp [normEntry, h1]
    · rcases pv with n | _
      · rcases h2 : (orChain [r.quantity, r.qty]).getD (Val.vint 1) with m | _
        · simp only [normEntry, h1, h2, Val.toInt?, Option.some_bind,
            Option.some.injEq]
          split_ifs with hc
          · simp only [Option.some.injEq, Prod.mk.injEq]
            constructor
            · rintro ⟨rfl, rfl⟩
              exact ⟨rfl, hc.1, rfl, hc.2⟩
            · rintro ⟨rfl, _, rfl, _⟩
              exact ⟨rfl, rfl⟩
          · constructor
            · intro h
              exact absurd h (by simp)
            · rintro ⟨rfl, hpp, rfl, hqq⟩
              exact absurd ⟨hpp, hqq⟩ hc
        · simp [normEntry, h1, h2, Val.toInt?]
      · simp [normEntry, h1, Val.toInt?]

/-- A normalized entry, stored back as `{"id": p, "quantity": q}`, survives
re-normalization unchanged. -/
theorem normEntry_toRaw {e : Int × Int} (h : 0 < e.1 ∧ 0 < e.2) :
    normEntry (toRaw e) = some e := by
  rcases e with ⟨p, q⟩
  have hp : p ≠ 0 := by omega
  have hq : q ≠ 0 := by omega
  simp [normEntry, toRaw, orChain, Val.truthy, Val.toInt?, hp, hq, h.1, h.2]

theorem filterMap_normEntry_toRaw :
    ∀ (out : List (Int × Int)), (∀ e ∈ out, 0 < e.1 ∧ 0 < e.2) →
      out.filterMap (fun e => normEntry (toRaw e)) = out := by
  intro out
  induction out with
  | nil => exact fun _ => rfl
  | cons e rest ih =>
    intro h
    have he := h e (List.mem_cons_self e rest)
    simp only [List.filterMap_cons, normEntry_toRaw he]
    rw [ih fun x hx => h x (List.mem_cons_of_mem e hx)]

/-- C8: re-normalizing the stored, already-normalized cart list is a no-op:
`_normalize_items` applied to its own output (as written back to the session)
yields the same list. -/
theorem normalize_items_idempotent (l : List RawItem) :
    normalizeItems ((normalizeItems l).map toRaw) = normalizeItems l := by
  unfold normalizeItems
  rw [List.filterMap_map]
  refine filterMap_normEntry_toRaw _ fun e he => ?_
  obtain ⟨r, _, hr⟩ := List.mem_filterMap.mp he
  exact normEntry_pos hr

/-- Function `compute_order_total` never reads the order's status, so marking the
order `PAID` does not change the recomputed payment amount. -/
theorem computeOrderTotal_mk_status (st st' : String) (its : List OrderItemRec)
    (dp cp co da ca : Option ℚ) :
    computeOrderTotal ⟨st', its, dp, cp, co, da, ca⟩ =
      computeOrderTotal ⟨st, its, dp, cp, co, da, ca⟩ := rfl

/-- C1: replaying the same payment confirmation is a no-op — `mark_paid`
applied twice with the same identifiers yields exactly the state after one
application; the order ends with status `PAID`, and the Payment table for the
order gains at most one row (`get_or_create` reuses the existing one). -/
theorem mark_paid_idempotent (cur : String) (s : PayState) (pid sid : Option String) :
    markPaid cur (markPaid cur s pid sid) pid sid = markPaid cur s pid sid ∧
    (markPaid cur s pid sid).order.status = "PAID" ∧
    (markPaid cur s pid sid).payments.length = max 1 s.payments.length := by
  rcases s with ⟨⟨st, its, dp, cp, co, da, ca⟩, ps⟩
  rcases ps with _ | ⟨⟨prov, pcur, amt, ip, pss, ppi⟩, rest⟩
  · rcases pid with _ | pi <;> rcases sid with _ | si <;>
      simp [markPaid, ensurePayment] <;> split_ifs <;> simp_all
    all_goals rfl
  · rcases pid with _ | pi <;> rcases sid with _ | si <;> cases ip <;>
      simp [markPaid, ensurePayment] <;> split_ifs <;> simp_all
    all_goals rfl

/-- C10: a POST to the add-item endpoint whose body fails normalization
leaves the stored session cart exactly unchanged and still answers 200 with
the current (normalized) cart contents and subtotal. -/
theorem add_item_bad_body_noop (priceOf : Int → ℚ) (stored : List RawItem)
    (body : RawItem) (h : normalizeItems [body] = []) :
    addItem priceOf stored body =
      (stored, ⟨200, normalizeItems stored,
        enrichSubtotal priceOf (normalizeItems stored)⟩) := by
  simp [addItem, h]

/-- Witness for C10: an empty-mapping body on an empty session cart. -/
theorem add_item_bad_body_noop_witness :
    addItem (fun _ => 0) [] {} =
      ([], ⟨200, normalizeItems [],
        enrichSubtotal (fun _ => 0) (normalizeItems [])⟩) :=
  add_item_bad_body_noop (fun _ => 0) [] {} (by decide)

/-- C9: the fulfillment channel is taken from the request body when
recognized, else from the session metadata when recognized, else defaults to
`DINE_IN`; a hosted checkout session is created and its redirect URL returned
exactly for `DINE_IN`/`TAKEAWAY`, while `UBEREATS`/`DOORDASH` get a null
checkout URL, no payment session, and the configured static aggregator
links. -/
theorem checkout_channel_selection_and_dispatch (bodySt : String)
    (metaSt : Option String) (s : AggregatorSettings) (url : String) :
    selectServiceType bodySt metaSt =
      (if bodySt.toUpper.trim ∈ allowedServiceTypes then bodySt.toUpper.trim
       else if metaSt.getD "" ∈ allowedServiceTypes then metaSt.getD ""
       else "DINE_IN") ∧
    selectServiceType bodySt metaSt ∈ allowedServiceTypes ∧
    ((dispatchCheckout (selectServiceType bodySt metaSt) s url).checkout_url = some url ↔
      selectServiceType bodySt metaSt = "DINE_IN" ∨
        selectServiceType bodySt metaSt = "TAKEAWAY") ∧
    ((dispatchCheckout (selectServiceType bodySt metaSt) s url).checkout_url = none ↔
      selectServiceType bodySt metaSt = "UBEREATS" ∨
        selectServiceType bodySt metaSt = "DOORDASH") ∧
    ((dispatchCheckout (selectServiceType bodySt metaSt) s url).sessionCreated = true ↔
      selectServiceType bodySt metaSt = "DINE_IN" ∨
        selectServiceType bodySt metaSt = "TAKEAWAY") ∧
    (dispatchCheckout (selectServiceType bodySt metaSt) s url).external_options =
      externalOptions s := by
  have hclosed : selectServiceType bodySt metaSt =
      (if bodySt.toUpper.trim ∈ allowedServiceTypes then bodySt.toUpper.trim
       else if metaSt.getD "" ∈ allowedServiceTypes then metaSt.getD ""
       else "DINE_IN") := by
    unfold selectServiceType
    rcases metaSt with _ | mm
    · simp [allowedServiceTypes]
    · simp [Option.getD]
  have hmem : selectServiceType bodySt metaSt ∈ allowedServiceTypes := by
    rw [hclosed]
    split_ifs with h1 h2
    · exact h1
    · exact h2
    · simp [allowedServiceTypes]
  refine ⟨hclosed, hmem, ?_, ?_, ?_, rfl⟩ <;>
  · have h4 : selectServiceType bodySt metaSt = "DINE_IN" ∨
        selectServiceType bodySt metaSt = "UBEREATS" ∨
        selectServiceType bodySt metaSt = "DOORDASH" ∨
        selectServiceType bodySt metaSt = "TAKEAWAY" := by
      simpa [allowedServiceTypes] using hmem
    rcases h4 with h | h | h | h <;> rw [h] <;> simp [dispatchCheckout]

theorem updLine_id (p qty : Int) (unit : ℚ) (oi : OrderItemRec) :
    (updLine p qty unit oi).menu_item_id = oi.menu_item_id := by
  unfold updLine
  split <;> rfl

theorem map_updLine_ids (p qty : Int) (unit : ℚ) (items : List OrderItemRec) :
    (items.map (updLine p qty unit)).map (·.menu_item_id) =
      items.map (·.menu_item_id) := by
  induction items with
  | nil => rfl
  | cons oi rest ih => simp only [List.map_cons, updLine_id, ih]

theorem map_updLine_of_not_mem (p qty : Int) (unit : ℚ) :
    ∀ items : List OrderItemRec, p ∉ items.map (·.menu_item_id) →
      items.map (updLine p qty unit) = items := by
  intro items
  induction items with
  | nil => exact fun _ => rfl
  | cons oi rest ih =>
    intro h
    simp only [List.map_cons, List.mem_cons] at h
    push_neg at h
    simp only [List.map_cons, ih h.2]
    congr 1
    unfold updLine
    rw [if_neg fun hc => h.1 hc.symm]

theorem filter_matching_of_not_mem (p : Int) :
    ∀ items : List OrderItemRec, p ∉ items.map (·.menu_item_id) →
      items.filter (fun oi => oi.menu_item_id == p) = [] ∧
      items.countP (fun oi => oi.menu_item_id == p) = 0 := by
  intro items
  induction items with
  | nil => exact fun _ => ⟨rfl, rfl⟩
  | cons oi rest ih =>
    intro h
    simp only [List.map_cons, List.mem_cons] at h
    push_neg at h
    have hne : (oi.menu_item_id == p) = false := by
      simp only [beq_eq_false_iff_ne, ne_eq]
      exact fun hc => h.1 hc.symm
    obtain ⟨h1, h2⟩ := ih h.2
    refine ⟨?_, ?_⟩
    · simp [List.filter_cons, hne, h1]
    · simp [List.countP_cons, hne, h2]

theorem filter_map_updLine_of_mem (p qty : Int) (unit : ℚ) :
    ∀ items : List OrderItemRec, (items.map (·.menu_item_id)).Nodup →
      p ∈ items.map (·.menu_item_id) →
      ((items.map (updLine p qty unit)).filter
          (fun oi => oi.menu_item_id == p)).map
          (fun oi => (oi.quantity, oi.unit_price)) =
        [(((items.filter (fun oi => oi.menu_item_id == p)).map
            (·.quantity)).sum + qty, unit)] ∧
      (items.map (updLine p qty unit)).countP (fun oi => oi.menu_item_id == p) = 1 := by
  intro items
  induction items with
  | nil => intro _ h; exact absurd h (by simp)
  | cons oi rest ih =>
    intro hnd hmem
    simp only [List.map_cons, List.nodup_cons] at hnd
    rcases eq_or_ne oi.menu_item_id p with heq | hne
    · have hrest : p ∉ rest.map (·.menu_item_id) := heq ▸ hnd.1
      have hupd : updLine p qty unit oi =
          { oi with quantity := oi.quantity + qty, unit_price := unit } := by
        unfold updLine
        rw [if_pos heq]
      obtain ⟨hf, hc⟩ := filter_matching_of_not_mem p rest hrest
      have hmaprest := map_updLine_of_not_mem p qty unit rest hrest
      obtain ⟨hf', hc'⟩ := filter_matching_of_not_mem p rest hrest
      refine ⟨?_, ?_⟩
      · simp [List.filter_cons, hupd, heq, hmaprest, hf, List.countP_cons]
      · simp [List.countP_cons, hupd, heq, hmaprest, hc]
    · have hmem' : p ∈ rest.map (·.menu_item_id) := by
        simp only [List.map_cons, List.mem_cons] at hmem
        rcases hmem with hcontr | h
        · exact absurd hcontr.symm hne
        · exact h
      have hupd : updLine p qty unit oi = oi := by
        unfold updLine
        rw [if_neg hne]
      have hne' : (oi.menu_item_id == p) = false := by
        simp only [beq_eq_false_iff_ne, ne_eq]
        exact hne
      obtain ⟨ihf, ihc⟩ := ih hnd.2 hmem'
      refine ⟨?_, ?_⟩
      · simpa [List.filter_cons, hupd, hne'] using ihf
      · simpa [List.countP_cons, hupd, hne'] using ihc

/-- C4 counterexample: merging a normalized session list that mentions
catalog item 5 twice into an order that does not yet contain it creates two
separate lines for item 5 (the `existing` dict is snapshotted before the
loop), instead of one line with the summed quantity. -/
theorem merge_duplicate_in_list_duplicates_lines :
    mergeCart (fun _ => 10) [] [(5, 1), (5, 2)] =
      [⟨5, 1, 10⟩, ⟨5, 2, 10⟩] ∧
    (mergeCart (fun _ => 10) [] [(5, 1), (5, 2)]).countP
      (fun oi => oi.menu_item_id == 5) = 2 := by
  exact ⟨by decide, by decide⟩

/-- C4 (amended): provided the order's lines have pairwise distinct catalog
ids and each merge call carries the item once (merging the same catalog item
twice happens across two calls), the merges sum quantities into a single
line: after merging `(p, q)` and then `(p, q')`, the order has exactly one
line for `p`, whose quantity is the original quantity of `p` (0 if absent)
plus `q + q'` and whose unit price is the current catalog price; line ids
stay pairwise distinct. A single normalized list that repeats a catalog item
the order does not yet contain instead appends one line per occurrence. -/
theorem merge_same_item_twice_single_line (f : Int → ℚ)
    (items : List OrderItemRec) (h : (items.map (·.menu_item_id)).Nodup)
    (p q q' : Int) :
    ((mergeCart f (mergeCart f items [(p, q)]) [(p, q')]).map
      (·.menu_item_id)).Nodup ∧
    (mergeCart f (mergeCart f items [(p, q)]) [(p, q')]).countP
      (fun oi => oi.menu_item_id == p) = 1 ∧
    ((mergeCart f (mergeCart f items [(p, q)]) [(p, q')]).filter
        (fun oi => oi.menu_item_id == p)).map
        (fun oi => (oi.quantity, oi.unit_price)) =
      [(((items.filter (fun oi => oi.menu_item_id == p)).map
          (·.quantity)).sum + q + q', f p)] := by
  have hm1 : mergeCart f items [(p, q)] =
      mergeStep (items.map (·.menu_item_id)) f items (p, q) := rfl
  by_cases hp : p ∈ items.map (·.menu_item_id)
  · -- the order already contains the item: both merges update in place
    have hm1' : mergeCart f items [(p, q)] = items.map (updLine p q (f p)) := by
      rw [hm1, mergeStep, if_pos hp]
    have hids1 : (mergeCart f items [(p, q)]).map (·.menu_item_id) =
        items.map (·.menu_item_id) := by
      rw [hm1', map_updLine_ids]
    have hm2 : mergeCart f (mergeCart f items [(p, q)]) [(p, q')] =
        (items.map (updLine p q (f p))).map (updLine p q' (f p)) := by
      show mergeStep ((mergeCart f items [(p, q)]).map (·.menu_item_id)) f
          (mergeCart f items [(p, q)]) (p, q') = _
      rw [hids1, mergeStep, if_pos hp, hm1']
    have hcomp : (items.map (updLine p q (f p))).map (updLine p q' (f p)) =
        items.map (updLine p (q + q') (f p)) := by
      rw [List.map_map]
      refine List.map_congr_left fun oi _ => ?_
      unfold updLine Function.comp
      rcases eq_or_ne oi.menu_item_id p with heq | hne
      · simp [heq, add_assoc]
      · simp [hne]
    obtain ⟨hf, hc⟩ := filter_map_updLine_of_mem p (q + q') (f p) items h hp
    refine ⟨?_, ?_, ?_⟩
    · rw [hm2, hcomp, map_updLine_ids]
      exact h
    · rw [hm2, hcomp]
      exact hc
    · rw [hm2, hcomp, hf, add_assoc]
  · -- the order does not contain the item: first merge appends, second sums
    have hm1' : mergeCart f items [(p, q)] = items ++ [⟨p, q, f p⟩] := by
      rw [hm1, mergeStep, if_neg hp]
    have hids1 : (mergeCart f items [(p, q)]).map (·.menu_item_id) =
        items.map (·.menu_item_id) ++ [p] := by
      rw [hm1']
      simp
    have hm2 : mergeCart f (mergeCart f items [(p, q)]) [(p, q')] =
        (items ++ [(⟨p, q, f p⟩ : OrderItemRec)]).map (updLine p q' (f p)) := by
      show mergeStep ((mergeCart f items [(p, q)]).map (·.menu_item_id)) f
          (mergeCart f items [(p, q)]) (p, q') = _
      rw [hids1, mergeStep, if_pos (by simp), hm1']
    have hm2' : mergeCart f (mergeCart f items [(p, q)]) [(p, q')] =
        items ++ [(⟨p, q + q', f p⟩ : OrderItemRec)] := by
      rw [hm2, List.map_append, map_updLine_of_not_mem p q' (f p) items hp]
      congr 1
      simp [updLine]
    obtain ⟨hf0, hc0⟩ := filter_matching_of_not_mem p items hp
    refine ⟨?_, ?_, ?_⟩
    · rw [hm2']
      simp only [List.map_append, List.map_cons, List.map_nil]
      refine List.Nodup.append h (by simp) ?_
      intro a ha hb
      simp only [List.mem_singleton] at hb
      exact hp (hb ▸ ha)
    · rw [hm2', List.countP_append, hc0]
      simp [List.countP_cons]
    · rw [hm2', List.filter_append, hf0]
      simp [List.filter_cons, hf0, hc0]

/-- Witness for the amended C4: merging item 5 twice into an empty order. -/
theorem merge_same_item_twice_witness :
    ((mergeCart (fun _ => 10) (mergeCart (fun _ => 10) [] [(5, 1)]) [(5, 2)]).map
      (·.menu_item_id)).Nodup ∧
    (mergeCart (fun _ => 10) (mergeCart (fun _ => 10) [] [(5, 1)]) [(5, 2)]).countP
      (fun oi => oi.menu_item_id == 5) = 1 ∧
    ((mergeCart (fun _ => 10) (mergeCart (fun _ => 10) [] [(5, 1)]) [(5, 2)]).filter
        (fun oi => oi.menu_item_id == 5)).map
        (fun oi => (oi.quantity, oi.unit_price)) =
      [(((([] : List OrderItemRec).filter (fun oi => oi.menu_item_id == 5)).map
          (·.quantity)).sum + 1 + 2, (fun _ => (10 : ℚ)) 5)] :=
  merge_same_item_twice_single_line (fun _ => 10) [] (by simp) 5 1 2

end RMS
